import Mathlib

/-!
Verification of `src/scripts/generate_overview.py`.

The script walks a fixed root directory, prints a visual tree of it, and
then dumps every regular file below the root as a fenced code block.

We embed the script shallowly:

* A file system is a rose tree of entries (`Entry`); the root directory
  either exists with a list of entries or does not exist (`FS`).
* A file's content is `Option String`: `some s` is text that opens and
  decodes successfully, `none` is a file whose open/read/decode fails.
* Standard output is modelled as the list of raw chunks written to it.
  A Python `print s` call writes the chunk `s ++ "\n"` (helper `pr`);
  the external `DisplayTree` renderer writes one chunk of its own.
* A run result is `(chunks, ok)`: the chunks written before the run
  finishes or aborts, and `ok = false` when an unhandled exception
  escapes (the interpreter then exits with a non-zero status).
-/

/-- One directory entry: a regular file with its decoded text content
(`none` when opening or decoding the file fails), or a subdirectory. -/
inductive Entry where
  | file (name : String) (content : Option String)
  | dir (name : String) (entries : List Entry)

/-- The state of the root directory: `none` when it does not exist,
`some es` when it exists and directly contains the entries `es`. -/
abbrev FS := Option (List Entry)

/-- `os.path.join` on POSIX with non-empty relative components. -/
def path_join (a b : String) : String := a ++ "/" ++ b

/-- The chunk a Python `print(s)` call writes to stdout. -/
def pr (s : String) : String := s ++ "\n"

/-- Names and contents of the regular files directly inside a directory,
in directory order (the `files` component of an `os.walk` triple). -/
def filesOf : List Entry → List (String × Option String)
  | [] => []
  | Entry.file n c :: rest => (n, c) :: filesOf rest
  | Entry.dir _ _ :: rest => filesOf rest

mutual

/-- `os.walk(path)` over an existing directory with entries `es`:
top-down traversal, yielding for each directory its path together with
the (name, content) pairs of the regular files directly inside it. -/
def walk (path : String) (es : List Entry) :
    List (String × List (String × Option String)) :=
  (path, filesOf es) :: walkSub path es

/-- The `os.walk` triples contributed by the subdirectories among `es`. -/
def walkSub (path : String) : List Entry → List (String × List (String × Option String))
  | [] => []
  | Entry.file _ _ :: rest => walkSub path rest
  | Entry.dir n sub :: rest => walk (path_join path n) sub ++ walkSub path rest

end

/-- All (full path, content) pairs produced by iterating `os.walk` and
joining each directory path with each file name, in traversal order. -/
def flattenTrips : List (String × List (String × Option String)) →
    List (String × Option String)
  | [] => []
  | (root, fs) :: rest =>
      fs.map (fun nc => (path_join root nc.1, nc.2)) ++ flattenTrips rest

/-- The chunk sequence the inner loop of `print_files` writes for one
successfully read file at full path `p` with text content `s`:
the `path:` header line, the opening fence line tagged `rust`, the
content as printed by `print(f.read())`, and the closing
`print("```\n")` call (closing fence line plus one blank line). -/
def fileBlock (p s : String) : List String :=
  [pr (p ++ ":"), pr "```rust", pr s, pr "```\n"]

/-- The inner loops of `print_files`, over the flattened (path, content)
sequence: each file prints its header and opening fence, then opens the
file; a failing open/read/decode raises, aborting the run right there. -/
def dumpSeq : List (String × Option String) → List String × Bool
  | [] => ([], true)
  | (p, none) :: _ => ([pr (p ++ ":"), pr "```rust"], false)
  | (p, some s) :: rest =>
      let r := dumpSeq rest
      (fileBlock p s ++ r.1, r.2)

/-- `print_files(dir)`: walks `dir` and dumps every file found.
`os.walk` on a non-existent directory yields no triples and raises
nothing (its default `onerror=None` swallows the scandir error), so a
missing root produces no output and no exception here. -/
def print_files : FS → String → List String × Bool
  | none, _ => ([], true)
  | some es, dir => dumpSeq (flattenTrips (walk dir es))

/-- `print_tree(dir)`: prints the fixed header line, an opening fence,
the external `DisplayTree(dir)` rendering, a closing fence, and a blank
line (`print("\n")` writes two newlines).

Modelled from the spec: `DisplayTree` comes from the external
`directory_tree` library, which is not part of this repository's
sources. Per the spec, on a missing root the tree-rendering collaborator
raises an unhandled error; on an existing root it prints one textual
rendering of the tree, modelled by an arbitrary function `render`. -/
def print_tree (render : List Entry → String) : FS → String → List String × Bool
  | none, _ => ([pr "Directory tree:", pr "```"], false)
  | some es, _ =>
      ([pr "Directory tree:", pr "```", render es, pr "```", pr "\n"], true)

/-- The `__main__` block: `print_tree("src")` then `print_files("src")`,
unconditionally; an exception in the first call prevents the second. -/
def mainRun (render : List Entry → String) (fs : FS) : List String × Bool :=
  let t := print_tree render fs "src"
  if t.2 then
    let f := print_files fs "src"
    (t.1 ++ f.1, f.2)
  else
    (t.1, false)

mutual

/-- Canonical enumeration of every regular file below a directory, each
exactly once, with its full path: the files directly inside, then the
files of each subdirectory in order. -/
def allFiles (path : String) (es : List Entry) : List (String × Option String) :=
  (filesOf es).map (fun nc => (path_join path nc.1, nc.2)) ++ allFilesSub path es

/-- The files contributed by the subdirectories among `es`. -/
def allFilesSub (path : String) : List Entry → List (String × Option String)
  | [] => []
  | Entry.file _ _ :: rest => allFilesSub path rest
  | Entry.dir n sub :: rest => allFiles (path_join path n) sub ++ allFilesSub path rest

end

/-- The number of regular files anywhere below a list of entries. -/
def countFiles : List Entry → Nat
  | [] => 0
  | Entry.file _ _ :: rest => countFiles rest + 1
  | Entry.dir _ sub :: rest => countFiles sub + countFiles rest

/-- The chunk sequence `print_files` writes for a list of files when
every file reads successfully: one `fileBlock` per file, in order. -/
def blocksOf : List (String × Option String) → List String
  | [] => []
  | (p, c) :: rest => fileBlock p (c.getD "") ++ blocksOf rest

/-- Concatenation of a list of output chunks into the flat stdout text. -/
def catChunks : List String → String
  | [] => ""
  | c :: rest => c ++ catChunks rest

/-- The files a run of the inner loops actually visits: every file up to
and including the first one whose open/read fails (the run aborts
there), or all of them when every read succeeds. -/
def visited : List (String × Option String) → List (String × Option String)
  | [] => []
  | (p, none) :: _ => [(p, none)]
  | (p, some s) :: rest => (p, some s) :: visited rest

/-- The bytes printed strictly between each opening fence line
(the chunk written by `print("```rust")`) and the closing fence line
that follows it (the chunk written by `print("```\n")`): one extracted
string per fenced block, in order of appearance. -/
def fenceSegments : List String → List String
  | [] => []
  | ch :: rest =>
      if ch = pr "```rust" then
        catChunks (rest.takeWhile (fun c => c ≠ pr "```\n")) ::
          fenceSegments ((rest.dropWhile (fun c => c ≠ pr "```\n")).drop 1)
      else fenceSegments rest
termination_by l => l.length
decreasing_by
  · have h1 : (List.dropWhile (fun c => decide (c ≠ pr "```\n")) rest).length ≤ rest.length :=
      (List.dropWhile_sublist _).length_le
    simp only [List.length_drop, List.length_cons]
    omega
  · simp

/-- An observable event of a `print_files` run: acquiring the handle of
an opened file, releasing it, or writing a chunk to stdout. -/
inductive Ev where
  | acq (path : String)
  | rel (path : String)
  | out (chunk : String)

/-- The effect of one event on the number of currently open handles. -/
def evDelta : Ev → Int
  | Ev.acq _ => 1
  | Ev.rel _ => -1
  | Ev.out _ => 0

/-- The event trace of the inner loops of `print_files`. For each file:
header and opening fence are printed, then `with open(...)` acquires the
handle. On a successful read the body prints the content, the `with`
block exits releasing the handle, and the closing fence is printed. When
the read/decode inside the `with` block raises, the context manager
releases the handle before the exception propagates, aborting the run. -/
def traceSeq : List (String × Option String) → List Ev
  | [] => []
  | (p, none) :: _ =>
      [Ev.out (pr (p ++ ":")), Ev.out (pr "```rust"), Ev.acq p, Ev.rel p]
  | (p, some s) :: rest =>
      [Ev.out (pr (p ++ ":")), Ev.out (pr "```rust"), Ev.acq p,
       Ev.out (pr s), Ev.rel p, Ev.out (pr "```\n")] ++ traceSeq rest

/-- The stdout chunks of an event trace. -/
def outChunks : List Ev → List String
  | [] => []
  | Ev.out c :: rest => c :: outChunks rest
  | Ev.acq _ :: rest => outChunks rest
  | Ev.rel _ :: rest => outChunks rest

/-- Starting from `n` open handles, checks that after every single event
the number of open handles stays between 0 and 1, and equals 0 once the
trace ends: handles are scoped, released on every path, and never more
than one is open at a time. -/
def handleSafe (n : Int) : List Ev → Bool
  | [] => n == 0
  | e :: rest =>
      let m := n + evDelta e
      decide (0 ≤ m) && decide (m ≤ 1) && handleSafe m rest

/-- The event trace of `print_files(dir)`: empty for a missing root
(`os.walk` yields nothing), otherwise the trace of the inner loops. -/
def print_files_trace : FS → String → List Ev
  | none, _ => []
  | some es, dir => traceSeq (flattenTrips (walk dir es))

/-! ### Helper lemmas -/

theorem pr_inj {x y : String} (h : pr x = pr y) : x = y := by
  have hd := congrArg String.data h
  simp only [pr, String.data_append] at hd
  exact String.ext (List.append_cancel_right hd)

theorem append_colon_ne (p t : String) (h : t.data.getLast? ≠ some ':') :
    p ++ ":" ≠ t := by
  intro he
  apply h
  rw [← he]
  have hd : (p ++ ":").data = p.data ++ [':'] := by
    simp only [String.data_append]
  rw [hd, List.getLast?_concat]

theorem header_ne_open (p : String) : pr (p ++ ":") ≠ pr "```rust" :=
  fun h => append_colon_ne p "```rust" (by decide) (pr_inj h)

theorem header_ne_close (p : String) : pr (p ++ ":") ≠ pr "```\n" :=
  fun h => append_colon_ne p "```\n" (by decide) (pr_inj h)

theorem flattenTrips_append (a b : List (String × List (String × Option String))) :
    flattenTrips (a ++ b) = flattenTrips a ++ flattenTrips b := by
  induction a with
  | nil => simp [flattenTrips]
  | cons x rest ih =>
      cases x with
      | mk root fs => simp [flattenTrips, ih]

mutual

theorem flattenTrips_walk (path : String) (es : List Entry) :
    flattenTrips (walk path es) = allFiles path es := by
  rw [walk, allFiles]
  simp only [flattenTrips]
  rw [flattenTrips_walkSub path es]
termination_by (sizeOf es, 1)

theorem flattenTrips_walkSub (path : String) (es : List Entry) :
    flattenTrips (walkSub path es) = allFilesSub path es := by
  match es with
  | [] => simp [walkSub, allFilesSub, flattenTrips]
  | Entry.file n c :: rest =>
      rw [walkSub, allFilesSub]
      exact flattenTrips_walkSub path rest
  | Entry.dir n sub :: rest =>
      rw [walkSub, allFilesSub, flattenTrips_append]
      rw [flattenTrips_walk (path_join path n) sub]
      rw [flattenTrips_walkSub path rest]
termination_by (sizeOf es, 0)

end

mutual

theorem allFiles_length (path : String) (es : List Entry) :
    (allFiles path es).length = countFiles es := by
  rw [allFiles]
  have h := allFilesSub_length path es
  simp only [List.length_append, List.length_map]
  omega
termination_by (sizeOf es, 1)

theorem allFilesSub_length (path : String) (es : List Entry) :
    (allFilesSub path es).length + (filesOf es).length = countFiles es := by
  match es with
  | [] => simp [allFilesSub, filesOf, countFiles]
  | Entry.file n c :: rest =>
      rw [allFilesSub, filesOf, countFiles]
      have h := allFilesSub_length path rest
      simp only [List.length_cons]
      omega
  | Entry.dir n sub :: rest =>
      rw [allFilesSub, filesOf, countFiles]
      have h1 := allFiles_length (path_join path n) sub
      have h2 := allFilesSub_length path rest
      simp only [List.length_append]
      omega
termination_by (sizeOf es, 0)

end

theorem dumpSeq_ok (l : List (String × Option String))
    (h : ∀ x ∈ l, x.2.isSome = true) :
    dumpSeq l = (blocksOf l, true) := by
  induction l with
  | nil => simp [dumpSeq, blocksOf]
  | cons x rest ih =>
      obtain ⟨p, c⟩ := x
      have hx : c.isSome = true := h (p, c) (List.mem_cons_self _ _)
      obtain ⟨s, rfl⟩ := Option.isSome_iff_exists.mp hx
      have hrest : dumpSeq rest = (blocksOf rest, true) :=
        ih fun y hy => h y (List.mem_cons_of_mem _ hy)
      simp [dumpSeq, blocksOf, hrest]

theorem dumpSeq_err (good : List (String × Option String)) (p : String)
    (rest : List (String × Option String))
    (h : ∀ x ∈ good, x.2.isSome = true) :
    dumpSeq (good ++ (p, none) :: rest) =
      (blocksOf good ++ [pr (p ++ ":"), pr "```rust"], false) := by
  induction good with
  | nil => simp [dumpSeq, blocksOf]
  | cons x g ih =>
      obtain ⟨q, c⟩ := x
      have hx : c.isSome = true := h (q, c) (List.mem_cons_self _ _)
      obtain ⟨s, rfl⟩ := Option.isSome_iff_exists.mp hx
      have hg := ih fun y hy => h y (List.mem_cons_of_mem _ hy)
      simp [dumpSeq, blocksOf, hg]

theorem fenceSegments_cons_ne (ch : String) (rest : List String)
    (h : ch ≠ pr "```rust") :
    fenceSegments (ch :: rest) = fenceSegments rest := by
  rw [fenceSegments]
  simp [h]

theorem fenceSegments_block (p s : String) (cs : List String)
    (hs2 : s ≠ "```\n") :
    fenceSegments (pr (p ++ ":") :: pr "```rust" :: pr s :: pr "```\n" :: cs) =
      (s ++ "\n") :: fenceSegments cs := by
  rw [fenceSegments_cons_ne _ _ (header_ne_open p)]
  rw [fenceSegments]
  have hs : s ++ "\n" ≠ "```\n\n" := fun h => hs2 (pr_inj h)
  simp [hs, catChunks, pr]

theorem fenceSegments_blocksOf (l : List (String × Option String))
    (h : ∀ x ∈ l, x.2.getD "" ≠ "```\n") :
    fenceSegments (blocksOf l) = l.map (fun x => x.2.getD "" ++ "\n") := by
  induction l with
  | nil => simp [blocksOf, fenceSegments]
  | cons x rest ih =>
      obtain ⟨p, c⟩ := x
      have hb : blocksOf ((p, c) :: rest) =
          pr (p ++ ":") :: pr "```rust" :: pr (c.getD "") :: pr "```\n" :: blocksOf rest := by
        simp [blocksOf, fileBlock]
      rw [hb, fenceSegments_block _ _ _ (h (p, c) (List.mem_cons_self _ _))]
      rw [ih fun y hy => h y (List.mem_cons_of_mem _ hy)]
      simp

theorem isInfixExtendLeft {α : Type} (x l r : List α) (h : l <:+: r) :
    l <:+: x ++ r := by
  obtain ⟨a, b, hab⟩ := h
  exact ⟨x ++ a, b, by rw [← hab]; simp⟩

theorem dumpSeq_visited_block (l : List (String × Option String)) (p : String)
    (c : Option String) (hmem : (p, c) ∈ visited l) :
    [pr (p ++ ":"), pr "```rust"] <:+: (dumpSeq l).1 := by
  induction l with
  | nil => simp [visited] at hmem
  | cons x rest ih =>
      obtain ⟨q, oc⟩ := x
      match oc with
      | none =>
          simp only [visited, List.mem_singleton, Prod.mk.injEq] at hmem
          obtain ⟨rfl, rfl⟩ := hmem
          exact ⟨[], [], by simp [dumpSeq]⟩
      | some s =>
          simp only [visited, List.mem_cons, Prod.mk.injEq] at hmem
          rcases hmem with ⟨rfl, rfl⟩ | hmem
          · exact ⟨[], [pr s, pr "```\n"] ++ (dumpSeq rest).1, by simp [dumpSeq, fileBlock]⟩
          · have := ih hmem
            rw [show (dumpSeq ((q, some s) :: rest)).1 = fileBlock q s ++ (dumpSeq rest).1
              from by simp [dumpSeq]]
            exact isInfixExtendLeft _ _ _ this

theorem outChunks_traceSeq (l : List (String × Option String)) :
    outChunks (traceSeq l) = (dumpSeq l).1 := by
  induction l with
  | nil => simp [traceSeq, outChunks, dumpSeq]
  | cons x rest ih =>
      obtain ⟨p, oc⟩ := x
      match oc with
      | none => simp [traceSeq, outChunks, dumpSeq]
      | some s => simp [traceSeq, outChunks, dumpSeq, fileBlock, ih]

theorem handleSafe_traceSeq (l : List (String × Option String)) :
    handleSafe 0 (traceSeq l) = true := by
  induction l with
  | nil => simp [traceSeq, handleSafe]
  | cons x rest ih =>
      obtain ⟨p, oc⟩ := x
      match oc with
      | none => simp [traceSeq, handleSafe, evDelta]
      | some s => simpa [traceSeq, handleSafe, evDelta] using ih

/-! ### Claims -/

/-- C1, counterexample: for a root holding one file `a.txt` with on-disk
content `"hello"`, the text printed between that file's fence lines is
not byte-identical to `"hello"` (it is `"hello\n"`: `print(f.read())`
appends one newline). -/
theorem c1_counterexample :
    fenceSegments ((print_files (some [Entry.file "a.txt" (some "hello")]) "src").1) ≠
      ["hello"] := by
  intro h
  rw [show fenceSegments ((print_files (some [Entry.file "a.txt" (some "hello")]) "src").1) =
      ["hello\n"] from by
    simp [print_files, walk, walkSub, flattenTrips, filesOf, dumpSeq, fileBlock,
      path_join, fenceSegments, catChunks, pr]] at h
  exact absurd h (by decide)

/-- C1, amended: for every visited regular file whose contents are valid
text, the text printed between that file's opening fence line and its
closing fence line is the file's on-disk content followed by exactly one
extra newline, appended by the `print` call that writes the content (so
the content is recovered by stripping that single trailing newline, not
byte-identically). Stated for every file of the walk, under the proviso
that no content is itself the closing-fence chunk `"```\n"`. -/
theorem c1_between_fences_is_content_newline (dir : String) (es : List Entry)
    (hok : ∀ x ∈ allFiles dir es, x.2.isSome = true)
    (hnc : ∀ x ∈ allFiles dir es, x.2.getD "" ≠ "```\n") :
    fenceSegments ((print_files (some es) dir).1) =
      (allFiles dir es).map (fun x => x.2.getD "" ++ "\n") := by
  have h1 : print_files (some es) dir = (blocksOf (allFiles dir es), true) := by
    show dumpSeq (flattenTrips (walk dir es)) = _
    rw [flattenTrips_walk]
    exact dumpSeq_ok _ hok
  rw [h1]
  exact fenceSegments_blocksOf _ hnc

/-- Witness for the amended C1, at a nested two-file root. -/
theorem c1_between_fences_witness :
    fenceSegments ((print_files (some [Entry.file "a.txt" (some "hello"),
        Entry.dir "sub" [Entry.file "b.txt" (some "world")]]) "src").1) =
      (allFiles "src" [Entry.file "a.txt" (some "hello"),
        Entry.dir "sub" [Entry.file "b.txt" (some "world")]]).map
        (fun x => x.2.getD "" ++ "\n") :=
  c1_between_fences_is_content_newline "src" _
    (by simp [allFiles, allFilesSub, filesOf, path_join])
    (by simp [allFiles, allFilesSub, filesOf, path_join])

/-- C2: every visited file (every file up to and including the first
failing one) has its header immediately followed by the opening fence
line carrying the fixed literal tag `rust`, whatever the file's name,
extension or content. -/
theorem c2_fixed_rust_tag (es : List Entry) (dir p : String) (c : Option String)
    (hmem : (p, c) ∈ visited (flattenTrips (walk dir es))) :
    [pr (p ++ ":"), pr "```rust"] <:+: (print_files (some es) dir).1 := by
  have h := dumpSeq_visited_block _ p c hmem
  simpa [print_files] using h

/-- Witness for C2: a `.txt` file still gets the `rust` tag. -/
theorem c2_fixed_rust_tag_witness :
    [pr ("src/a.txt" ++ ":"), pr "```rust"] <:+:
      (print_files (some [Entry.file "a.txt" (some "hi")]) "src").1 :=
  c2_fixed_rust_tag [Entry.file "a.txt" (some "hi")] "src" "src/a.txt" (some "hi")
    (by simp [walk, walkSub, flattenTrips, filesOf, visited, path_join])

/-- C3: over a root whose files are all readable, the walk visits every
file exactly once (it enumerates precisely the canonical once-each file
list), the number of visited files is the number of regular files below
the root, and the output is exactly one block per visited file: the
`path:` header, one opening fence line, the content, one closing fence
line, then one blank line (`fileBlock`), with a successful exit. -/
theorem c3_one_block_per_file (dir : String) (es : List Entry)
    (hok : ∀ x ∈ allFiles dir es, x.2.isSome = true) :
    flattenTrips (walk dir es) = allFiles dir es ∧
    (allFiles dir es).length = countFiles es ∧
    print_files (some es) dir = (blocksOf (allFiles dir es), true) := by
  refine ⟨flattenTrips_walk dir es, allFiles_length dir es, ?_⟩
  show dumpSeq (flattenTrips (walk dir es)) = _
  rw [flattenTrips_walk]
  exact dumpSeq_ok _ hok

/-- Witness for C3, at a root with one top-level and one nested file. -/
theorem c3_one_block_per_file_witness :
    flattenTrips (walk "src" [Entry.file "a.txt" (some "hello"),
        Entry.dir "sub" [Entry.file "b.txt" (some "world")]]) =
      allFiles "src" [Entry.file "a.txt" (some "hello"),
        Entry.dir "sub" [Entry.file "b.txt" (some "world")]] ∧
    (allFiles "src" [Entry.file "a.txt" (some "hello"),
        Entry.dir "sub" [Entry.file "b.txt" (some "world")]]).length =
      countFiles [Entry.file "a.txt" (some "hello"),
        Entry.dir "sub" [Entry.file "b.txt" (some "world")]] ∧
    print_files (some [Entry.file "a.txt" (some "hello"),
        Entry.dir "sub" [Entry.file "b.txt" (some "world")]]) "src" =
      (blocksOf (allFiles "src" [Entry.file "a.txt" (some "hello"),
        Entry.dir "sub" [Entry.file "b.txt" (some "world")]]), true) :=
  c3_one_block_per_file "src" _ (by simp [allFiles, allFilesSub, filesOf, path_join])

/-- C4: on an existing root the program's whole output is the tree
rendering — header line, opening fence, tree text, closing fence, blank
line — exactly once and strictly before all the file dump output, and
the run then behaves as `print_files("src")`: `__main__` takes no
arguments or configuration beyond the fixed literal root. -/
theorem c4_tree_once_before_files (render : List Entry → String) (es : List Entry) :
    mainRun render (some es) =
      ([pr "Directory tree:", pr "```", render es, pr "```", pr "\n"] ++
          (print_files (some es) "src").1,
        (print_files (some es) "src").2) := by
  simp [mainRun, print_tree]

/-- C5: when the root directory does not exist, the run prints only the
two leading tree-header chunks — no `path:` headers, no fence blocks for
files — and terminates unsuccessfully, the error being raised by the
tree-rendering collaborator. -/
theorem c5_missing_root_no_file_output (render : List Entry → String) :
    mainRun render none = ([pr "Directory tree:", pr "```"], false) := by
  simp [mainRun, print_tree]

/-- C6: if the walk reaches a file whose open/read/decode fails after a
prefix of readable files, `print_files` prints the full blocks of all
prior files plus the failing file's header and opening fence, then
aborts with an unhandled error (non-zero exit); the remaining files
contribute nothing — no skip-and-continue. -/
theorem c6_abort_on_unreadable (dir : String) (es : List Entry)
    (pre : List (String × Option String)) (p : String)
    (rest : List (String × Option String))
    (hsplit : allFiles dir es = pre ++ (p, none) :: rest)
    (hpre : ∀ x ∈ pre, x.2.isSome = true) :
    print_files (some es) dir =
      (blocksOf pre ++ [pr (p ++ ":"), pr "```rust"], false) := by
  show dumpSeq (flattenTrips (walk dir es)) = _
  rw [flattenTrips_walk, hsplit]
  exact dumpSeq_err pre p rest hpre

/-- Witness for C6: the second of three files is unreadable; the first
file is fully printed, the third not at all. -/
theorem c6_abort_on_unreadable_witness :
    print_files (some [Entry.file "a.txt" (some "ok"), Entry.file "bad.bin" none,
        Entry.file "c.txt" (some "zz")]) "src" =
      (blocksOf [("src/a.txt", some "ok")] ++
        [pr ("src/bad.bin" ++ ":"), pr "```rust"], false) :=
  c6_abort_on_unreadable "src" _ [("src/a.txt", some "ok")] "src/bad.bin"
    [("src/c.txt", some "zz")]
    (by simp [allFiles, allFilesSub, filesOf, path_join]) (by simp)

/-- C7: on an existing root with zero regular files below it (at any
depth), `print_files` writes nothing at all and succeeds, while
`print_tree` still prints its header line and its fence-delimited tree
block. -/
theorem c7_empty_root (render : List Entry → String) (dir : String) (es : List Entry)
    (h : countFiles es = 0) :
    print_files (some es) dir = ([], true) ∧
    print_tree render (some es) dir =
      ([pr "Directory tree:", pr "```", render es, pr "```", pr "\n"], true) := by
  constructor
  · have hnil : allFiles dir es = [] :=
      List.length_eq_zero.mp (by rw [allFiles_length]; exact h)
    show dumpSeq (flattenTrips (walk dir es)) = _
    rw [flattenTrips_walk, hnil]
    simp [dumpSeq]
  · simp [print_tree]

/-- Witness for C7: a root containing only an empty subdirectory. -/
theorem c7_empty_root_witness :
    print_files (some [Entry.dir "sub" []]) "src" = ([], true) ∧
    print_tree (fun _ => "src\n") (some [Entry.dir "sub" []]) "src" =
      ([pr "Directory tree:", pr "```", (fun (_ : List Entry) => "src\n") [Entry.dir "sub" []],
        pr "```", pr "\n"], true) :=
  c7_empty_root (fun _ => "src\n") "src" [Entry.dir "sub" []] (by simp [countFiles])

/-- C8: along the event trace of any `print_files` run, after every
single event the number of open file handles is between 0 and 1 and it
is 0 when the trace ends — each handle is released when its read scope
exits, on the success path and on the failing-read path alike, and at
most one handle is ever open; the trace's stdout events are exactly the
chunks `print_files` writes. -/
theorem c8_handle_scoped (fs : FS) (dir : String) :
    handleSafe 0 (print_files_trace fs dir) = true ∧
    outChunks (print_files_trace fs dir) = (print_files fs dir).1 := by
  match fs with
  | none => simp [print_files_trace, print_files, handleSafe, outChunks]
  | some es =>
      refine ⟨handleSafe_traceSeq _, ?_⟩
      show outChunks (traceSeq (flattenTrips (walk dir es))) = _
      rw [outChunks_traceSeq]
      rfl

/-- C9: `print_files` on a missing root raises nothing and prints
nothing (`os.walk` silently yields no entries), so for a missing root
the whole run equals `print_tree` alone, whose failure is the only
source of the non-zero termination. -/
theorem c9_missing_root_walk_silent (dir : String) (render : List Entry → String) :
    print_files none dir = ([], true) ∧
    mainRun render none = print_tree render none "src" ∧
    (print_tree render none "src").2 = false := by
  refine ⟨rfl, ?_, rfl⟩
  simp [mainRun, print_tree]

/-- C10: the program is deterministic in its inputs — two runs over the
same file-system state and the same tree rendering produce identical
output and exit status; the model takes no input besides these. -/
theorem c10_deterministic (r1 r2 : List Entry → String) (f1 f2 : FS)
    (hr : r1 = r2) (hf : f1 = f2) :
    mainRun r1 f1 = mainRun r2 f2 := by
  rw [hr, hf]

/-- Witness for C10, at a concrete rendering and file system. -/
theorem c10_deterministic_witness :
    mainRun (fun _ => "src\n") (some [Entry.file "a.txt" (some "x")]) =
      mainRun (fun _ => "src\n") (some [Entry.file "a.txt" (some "x")]) :=
  c10_deterministic _ _ _ _ rfl rfl
